import Mathlib

/-!
Shallow embedding of the upload-orchestration layer of `src/App.js`
(a browser S3 file-manager UI built on AWS Amplify `Storage`), together
with theorems checking the specification's claims against it.

Conventions used throughout:
* JS numbers are modelled as `ℚ` (exact rationals); `Option ℚ` (`JsNum`)
  is used where `NaN` / `undefined` / `null` can flow into a numeric slot
  (`none` models those non-numeric values).
* Opaque numeric primitives of the JS runtime (`Math.log`, `Math.pow`,
  `Number.prototype.toFixed`, `parseFloat`, number→string coercion) are
  abstracted as fields of a `JsPrim` record, so every definition stays
  executable and no floating-point behaviour is invented.
* `localStorage` is a key/value association list; a stored value is
  `some v` for a string that parses as the JSON value `v`, and `none`
  for an unparseable string (`JSON.parse` round-trips plain JSON data).
* Async code is embedded by explicit state passing; `Storage` calls are
  recorded in traces of `StorOp` values.
-/

namespace S3Upload

/-! ### Configuration constants (`UPLOAD_CONFIG`, App.js lines 44-56) -/

/-- `CHUNK_SIZE: 512 * 1024 * 1024` — 512MB chunks. -/
def CHUNK_SIZE : ℕ := 512 * 1024 * 1024

/-- `MAX_RETRIES: 5` — maximum retry attempts per chunk. -/
def MAX_RETRIES : ℕ := 5

/-- `CONCURRENT_UPLOADS: 4` — number of concurrent chunk uploads. -/
def CONCURRENT_UPLOADS : ℕ := 4

/-- `MAX_FILE_SIZE: 5 * 1024 * 1024 * 1024 * 1024` — 5TB. -/
def MAX_FILE_SIZE : ℕ := 5 * 1024 * 1024 * 1024 * 1024

/-- `CLEANUP.STALE_THRESHOLD_HOURS: 24`. -/
def STALE_THRESHOLD_HOURS : ℕ := 24

/-! ### JS numeric values and opaque runtime primitives -/

/-- A JS value flowing through a numeric slot: `some q` is an ordinary
finite number, `none` stands for the non-numeric values `NaN`,
`undefined` and `null` that JS arithmetic can produce or receive. -/
abbrev JsNum : Type := Option ℚ

/-- JS falsiness of a numeric slot: `0` is falsy, and so are the
non-numeric values (`NaN`, `undefined`, `null`) modelled by `none`. -/
def jsNumFalsy : JsNum → Bool
  | none => true
  | some q => q == 0

/-- Opaque JS runtime primitives used by `formatBytes` and the
progress-formatting code.  They are parameters of the embedding: the
theorems below hold for every interpretation of these fields. -/
structure JsPrim where
  log : JsNum → JsNum
  pow : JsNum → JsNum → JsNum
  div : JsNum → JsNum → JsNum
  floor : JsNum → JsNum
  toFixed : JsNum → ℕ → String
  parseFloat : String → JsNum
  numToStr : JsNum → String

/-- The unit-name array of `formatBytes`. -/
def byteUnits : List String :=
  ["Bytes", "KB", "MB", "GB", "TB", "PB", "EB", "ZB", "YB"]

/-- JS array indexing `byteUnits[d]` where `d` is an arbitrary JS number:
out-of-range, fractional, negative or non-numeric indices yield
`undefined`, which string concatenation renders as `"undefined"`. -/
def byteUnitAt : JsNum → String
  | none => "undefined"
  | some q =>
    if q.den = 1 && 0 ≤ q.num then byteUnits.getD q.num.toNat "undefined"
    else "undefined"

/-- `formatBytes(a, b = 2, k = 1024)` — first variant, App.js lines 74-80.
```
if (a === 0) return "0 Bytes";
if (!a) return "N/A";
let d = Math.floor(Math.log(a) / Math.log(k));
return parseFloat((a / Math.pow(k, d)).toFixed(Math.max(0, b))) + " " +
       ["Bytes", "KB", "MB", "GB", "TB", "PB", "EB", "ZB", "YB"][d];
```
-/
def formatBytes (P : JsPrim) (a : JsNum) (b : ℤ := 2) (k : JsNum := some 1024) : String :=
  if a = some 0 then "0 Bytes"
  else if jsNumFalsy a then "N/A"
  else
    let d := P.floor (P.div (P.log a) (P.log k))
    P.numToStr (P.parseFloat (P.toFixed (P.div a (P.pow k d)) (max 0 b).toNat)) ++ " " ++
      byteUnitAt d

/-- `formatBytes(a, b = 2, k = 1024)` — second variant, App.js lines
2102-2107 (transcribed from that occurrence; its body is the same token
stream as the first variant, differing only in line breaking). -/
def formatBytesSecond (P : JsPrim) (a : JsNum) (b : ℤ := 2) (k : JsNum := some 1024) : String :=
  if a = some 0 then "0 Bytes"
  else if jsNumFalsy a then "N/A"
  else
    let d := P.floor (P.div (P.log a) (P.log k))
    P.numToStr (P.parseFloat (P.toFixed (P.div a (P.pow k d)) (max 0 b).toNat)) ++ " " ++
      byteUnitAt d

/-- `formatTime(seconds)`, App.js lines 82-95.  A `ℚ` is always finite,
so the `!Number.isFinite(seconds)` escape only fires in the model for
`seconds === 0` (the code paths feeding it non-finite values are the
abstracted speed primitives). -/
def formatTime (seconds : ℚ) : String :=
  if seconds = 0 then "Calculating..."
  else
    let hours := ⌊seconds / 3600⌋
    let minutes := ⌊(seconds - 3600 * hours) / 60⌋
    let remainingSeconds := ⌊seconds - 3600 * hours - 60 * minutes⌋
    let t1 := if hours > 0 then toString hours ++ "h " else ""
    let t2 := if minutes > 0 || hours > 0 then t1 ++ toString minutes ++ "m " else t1
    t2 ++ toString remainingSeconds ++ "s"

/-! ### Part tracking (`MultipartUploadHandler`, App.js lines 333-402) -/

/-- One element of `this.parts` (App.js lines 355-368). -/
structure PartRec where
  partNumber : ℕ
  startByte : ℕ
  endByte : ℕ
  progress : ℚ
  status : String
  completed : Bool
  inProgress : Bool
  error : Option String
  startTime : Option ℚ
  endTime : Option ℚ
  bytesUploaded : ℚ
  size : ℕ
  deriving Repr, DecidableEq

/-- `this.numParts = Math.ceil(file.size / UPLOAD_CONFIG.CHUNK_SIZE)`
(App.js line 340); `(s + C - 1) / C` is the usual natural-number ceiling
of `s / C`. -/
def numParts (fileSize : ℕ) : ℕ := (fileSize + CHUNK_SIZE - 1) / CHUNK_SIZE

/-- `initializePartTracking` (App.js lines 354-369). -/
def initializePartTracking (fileSize : ℕ) : List PartRec :=
  (List.range (numParts fileSize)).map fun index =>
    { partNumber := index + 1
      startByte := index * CHUNK_SIZE
      endByte := min ((index + 1) * CHUNK_SIZE) fileSize
      progress := 0
      status := "pending"
      completed := false
      inProgress := false
      error := none
      startTime := none
      endTime := none
      bytesUploaded := 0
      size := min CHUNK_SIZE (fileSize - index * CHUNK_SIZE) }

/-- JS `x || y` for the `startTime` slot (a number or `null`): keeps `x`
when it is truthy (a non-zero number), otherwise evaluates to `y`. -/
def jsOrTime (x y : Option ℚ) : Option ℚ :=
  match x with
  | some q => if q ≠ 0 then some q else y
  | none => y

/-- `updatePartProgress(partNumber, progress, status, error = null)`
(App.js lines 371-387).  With `partNumber = 0` the JS index `-1` reads
`undefined` and the guard `if (this.parts[partIndex])` fails, so the
state is unchanged; likewise for an out-of-range part number. -/
def updatePartProgress (parts : List PartRec) (partNumber : ℕ) (progress : ℚ)
    (status : String) (error : Option String := none) (now : ℚ := 0) : List PartRec :=
  if partNumber = 0 then parts
  else
    match parts[partNumber - 1]? with
    | none => parts
    | some old =>
      parts.set (partNumber - 1)
        { old with
          progress := progress
          status := status
          inProgress := status == "uploading"
          completed := status == "completed"
          error := error
          startTime := jsOrTime old.startTime
            (if status == "uploading" then some now else none)
          endTime := if status == "completed" then some now else none
          bytesUploaded := (progress / 100) * old.size }

/-- JS truthiness of a part's `error` slot (`null` or a string):
`null` and the empty string are falsy. -/
def jsTruthyErr : Option String → Bool
  | none => false
  | some s => s != ""

/-- Number of progress categories (`completed` / `inProgress` /
`error`-truthy) a part falls into, as counted by the three filters of
`calculateProgress`. -/
def partCategoryCount (p : PartRec) : ℕ :=
  (if p.completed then 1 else 0) + (if p.inProgress then 1 else 0) +
    (if jsTruthyErr p.error then 1 else 0)

/-- The mutable fields of a `MultipartUploadHandler` that
`calculateProgress` reads or writes (App.js lines 333-352). -/
structure Handler where
  uploadId : String
  path : String
  fileName : String
  fileSize : ℕ
  numParts : ℕ
  startTime : ℚ
  bytesUploaded : ℚ
  uploadSpeed : ℚ
  lastSpeedUpdate : ℚ
  parts : List PartRec
  aborted : Bool

/-- The `statistics` object of a progress report (App.js lines 443-448).
`pending` is computed by subtraction and can be negative in JS, so it is
an integer here. -/
structure PartStats where
  completed : ℕ
  inProgress : ℕ
  failed : ℕ
  pending : ℤ
  deriving Repr, DecidableEq

/-- The object returned by `calculateProgress` (App.js lines 429-449). -/
structure ProgressInfo where
  id : String
  filename : String
  progress : ℚ
  loadedParts : ℕ
  totalParts : ℕ
  bytesUploaded : ℚ
  totalSize : ℚ
  uploadSpeed : String
  averageSpeed : String
  estimatedTimeRemaining : String
  elapsedTime : String
  status : String
  parts : List PartRec
  statistics : PartStats

/-- `calculateProgress(completedParts, bytesUploaded)` (App.js lines
404-450).  It mutates `this.uploadSpeed`, `this.bytesUploaded` and
`this.lastSpeedUpdate`, so the result pairs the updated handler with the
returned progress object.  In `ℚ`, `x / 0 = 0`, which matches the code's
`this.uploadSpeed ? remainingBytes / this.uploadSpeed : 0` guard for the
remaining-time slot. -/
def calculateProgress (P : JsPrim) (h : Handler) (_completedParts : ℕ)
    (bytesUploaded : ℚ) (now : ℚ) : Handler × ProgressInfo :=
  let elapsedTime := (now - h.startTime) / 1000
  let totalSize : ℚ := h.fileSize
  let timeSinceLastUpdate := (now - h.lastSpeedUpdate) / 1000
  let h' :=
    if timeSinceLastUpdate ≥ 1 then
      { h with
        uploadSpeed := (bytesUploaded - h.bytesUploaded) / timeSinceLastUpdate
        bytesUploaded := bytesUploaded
        lastSpeedUpdate := now }
    else h
  let averageSpeed := bytesUploaded / elapsedTime
  let remainingBytes := totalSize - bytesUploaded
  let estimatedTimeRemaining :=
    if h'.uploadSpeed ≠ 0 then remainingBytes / h'.uploadSpeed else 0
  let completedPartsCount := (h.parts.filter (fun p => p.completed)).length
  let inProgressPartsCount := (h.parts.filter (fun p => p.inProgress)).length
  let failedPartsCount := (h.parts.filter (fun p => jsTruthyErr p.error)).length
  (h',
    { id := h.uploadId
      filename := h.fileName
      progress := bytesUploaded / totalSize * 100
      loadedParts := completedPartsCount
      totalParts := h.numParts
      bytesUploaded := bytesUploaded
      totalSize := totalSize
      uploadSpeed := formatBytes P (some h'.uploadSpeed) ++ "/s"
      averageSpeed := formatBytes P (some averageSpeed) ++ "/s"
      estimatedTimeRemaining := formatTime estimatedTimeRemaining
      elapsedTime := formatTime elapsedTime
      status := if h.aborted then "aborted" else "in-progress"
      parts := h.parts
      statistics :=
        { completed := completedPartsCount
          inProgress := inProgressPartsCount
          failed := failedPartsCount
          pending := (h.numParts : ℤ) -
            (completedPartsCount + inProgressPartsCount + failedPartsCount) } })

/-- The `uploadedBytes` reduction of `updateOverallProgress`
(App.js lines 391-393). -/
def overallUploadedBytes (parts : List PartRec) : ℚ :=
  parts.foldl (fun total part => total + (part.size : ℚ) * (part.progress / 100)) 0

/-- `updateOverallProgress()` (App.js lines 389-402), up to the point
where the progress object is handed to the listeners. -/
def updateOverallProgress (P : JsPrim) (h : Handler) (now : ℚ) : Handler × ProgressInfo :=
  calculateProgress P h ((h.parts.filter (fun p => p.completed)).length)
    (overallUploadedBytes h.parts) now

/-- Parts states reachable from `initializePartTracking` by the
`updatePartProgress` calls the code performs.  The five step shapes are
the five call sites: `(n, 0, 'uploading')` and
`(n, partProgress, 'uploading')` (App.js lines 578, 590),
`(n, 100, 'completed')` (line 595), `(n, 0, 'error', error.message)`
(lines 549, 608), and `(n, 0, 'retrying', msg)` (line 615). -/
inductive ReachableParts (fileSize : ℕ) : List PartRec → Prop
  | init : ReachableParts fileSize (initializePartTracking fileSize)
  | uploading (ps : List PartRec) (n : ℕ) (prog now : ℚ) :
      ReachableParts fileSize ps →
      ReachableParts fileSize (updatePartProgress ps n prog "uploading" none now)
  | completedStep (ps : List PartRec) (n : ℕ) (now : ℚ) :
      ReachableParts fileSize ps →
      ReachableParts fileSize (updatePartProgress ps n 100 "completed" none now)
  | errorStep (ps : List PartRec) (n : ℕ) (msg : String) (now : ℚ) :
      ReachableParts fileSize ps →
      ReachableParts fileSize (updatePartProgress ps n 0 "error" (some msg) now)
  | retryStep (ps : List PartRec) (n : ℕ) (msg : String) (now : ℚ) :
      ReachableParts fileSize ps →
      ReachableParts fileSize (updatePartProgress ps n 0 "retrying" (some msg) now)

/-! ### Amplify `Storage` calls as a trace (`StorOp`) -/

/-- The Amplify `Storage` operations App.js performs: `Storage.put`,
`Storage.remove`, `Storage.cancel` and `Storage.list` — these four are
the only `Storage` methods the file calls; in particular there is no
native S3 multipart-upload call (`createMultipartUpload` /
`uploadPart` / `completeMultipartUpload` are never used). -/
inductive StorOp where
  | put (key : String) (level : String)
  | remove (key : String) (level : String)
  | cancel (key : String)
  | listKeys (path : String)
  deriving Repr, DecidableEq

/-- The object key `${this.path}_part${partNumber}` a chunk is uploaded
to (App.js line 582) and removed from (line 683). -/
def partObjectKey (path : String) (partNumber : ℕ) : String :=
  path ++ "_part" ++ toString partNumber

/-! ### `uploadPart` (App.js lines 570-625) -/

/-- Result of one `uploadPart(chunk, partNumber)` call: whether the call
returned (rather than threw), the successive retry delays it slept, the
parts state after the call, and the trace of `Storage` calls it made.
`delaysMs` holds each `await new Promise(resolve => setTimeout(...))`
duration in milliseconds, in order. -/
structure UploadPartRun where
  success : Bool
  delaysMs : List ℚ
  parts : List PartRec
  trace : List StorOp
  deriving Repr

/-- The `while (true)` retry loop of `uploadPart`.  `oracle i` tells
whether the `Storage.put` of attempt `i` (0-based) succeeds, and
`jitter k` is the value of `Math.random() * 1000` added to the `k`-th
backoff delay (1-based).  The loop body:

```
this.updatePartProgress(partNumber, 0, 'uploading');
const response = await Storage.put(`${this.path}_part${partNumber}`, chunk, ...);
this.updatePartProgress(partNumber, 100, 'completed');  // on success
// on failure:
retries++;
if (retries >= maxRetries) {
  this.updatePartProgress(partNumber, 0, 'error', error.message);
  throw new Error(...);
}
const delay = Math.min(initialDelay * Math.pow(2, retries - 1), this.maxRetryDelay)
  + Math.random() * 1000;
this.updatePartProgress(partNumber, 0, 'retrying', `Retrying...`);
await new Promise(resolve => setTimeout(resolve, delay));
```

`fuel` only bounds the recursion; called with `fuel = MAX_RETRIES` the
`fuel = 0` base case is unreachable, because `retries` grows by one per
iteration and the loop exits once `retries ≥ MAX_RETRIES`. -/
def uploadPartGo (oracle : ℕ → Bool) (jitter : ℕ → ℚ) (path : String)
    (partNumber : ℕ) (errMsg : String) (now : ℚ) :
    ℕ → ℕ → List ℚ → List PartRec → UploadPartRun
  | 0, _, delays, parts => ⟨false, delays, parts, []⟩
  | fuel + 1, retries, delays, parts =>
    let parts1 := updatePartProgress parts partNumber 0 "uploading" none now
    let op := StorOp.put (partObjectKey path partNumber) "protected"
    if oracle retries then
      let parts2 := updatePartProgress parts1 partNumber 100 "completed" none now
      ⟨true, delays, parts2, [op]⟩
    else
      let retries' := retries + 1
      if retries' ≥ MAX_RETRIES then
        let parts2 := updatePartProgress parts1 partNumber 0 "error" (some errMsg) now
        ⟨false, delays, parts2, [op]⟩
      else
        let delay := min (1000 * 2 ^ (retries' - 1)) 32000 + jitter retries'
        let parts2 := updatePartProgress parts1 partNumber 0 "retrying"
          (some ("Retrying... (Attempt " ++ toString retries' ++ " of " ++
            toString MAX_RETRIES ++ ")")) now
        let rest := uploadPartGo oracle jitter path partNumber errMsg now
          fuel retries' (delays ++ [delay]) parts2
        { rest with trace := op :: rest.trace }

/-- `uploadPart(chunk, partNumber)` entered with `retries = 0`. -/
def uploadPart (oracle : ℕ → Bool) (jitter : ℕ → ℚ) (path : String)
    (partNumber : ℕ) (errMsg : String) (now : ℚ) (parts : List PartRec) : UploadPartRun :=
  uploadPartGo oracle jitter path partNumber errMsg now MAX_RETRIES 0 [] parts

/-! ### `completeUpload` / `cleanupParts` (App.js lines 627-694) -/

/-- `cleanupParts()` (App.js lines 678-694): one
`Storage.remove(`${this.path}_part${part.PartNumber}`, {level:'protected'})`
per recorded uploaded part; failures are caught and skipped, so the
trace of attempted removals is the whole map. -/
def cleanupParts (path : String) (uploadedParts : List ℕ) : List StorOp :=
  uploadedParts.map fun n => StorOp.remove (partObjectKey path n) "protected"

/-- The `Storage` trace of `completeUpload()` (App.js lines 627-675) on
the non-aborted path, given the `PartNumber`s collected from the
successful `uploadPart` calls: if any part was uploaded, it re-sorts
them by part number, uploads the whole file to `this.path` with a plain
`Storage.put`, and then runs `cleanupParts`; with no uploaded parts the
`this.uploadedParts?.length` guard skips everything. -/
def completeUpload (path : String) (uploadedParts : List ℕ) : List StorOp :=
  if uploadedParts.length ≠ 0 then
    let orderedParts := List.insertionSort (fun a b => a ≤ b) uploadedParts
    StorOp.put path "protected" :: cleanupParts path orderedParts
  else []

/-! ### The `uploadParts` concurrency loop (App.js lines 532-568) -/

/-- A pending part-upload promise: the part number, the moment the
upload was started, and the moment it settles. -/
structure Prom where
  part : ℕ
  startT : ℕ
  settleT : ℕ
  deriving Repr, DecidableEq

/-- The predicate of
`uploadPromises.findIndex(p => p.status === 'fulfilled')` (App.js line
557).  A JS `Promise` object has no `status` property, so `p.status`
is `undefined` and the strict comparison with `'fulfilled'` is `false`
for every promise. -/
def promStatusFulfilled (_p : Prom) : Bool := false

/-- Earliest settle time among a non-empty list of pending promises
(the moment `Promise.race` settles); `0` for the empty list (the code
only races a list of length ≥ `CONCURRENT_UPLOADS`). -/
def minSettle : List Prom → ℕ
  | [] => 0
  | p :: rest => rest.foldl (fun m q => min m q.settleT) p.settleT

/-- State of the `uploadParts` loop: the current time (advanced only by
`await`), the live `uploadPromises` array, and every promise ever
launched (for accounting). -/
structure UPLoop where
  time : ℕ
  uploadPromises : List Prom
  launched : List Prom
  deriving Repr, DecidableEq

/-- One iteration of the `for (let partNumber = 1; ...)` loop of
`uploadParts` (App.js lines 536-562), for a run in which every part
upload eventually succeeds after `dur part` time units:

```
const uploadPromise = this.uploadPart(chunk, partNumber).then(...);
uploadPromises.push(uploadPromise);
if (uploadPromises.length >= UPLOAD_CONFIG.CONCURRENT_UPLOADS) {
  await Promise.race(uploadPromises);
  const completedIndex = uploadPromises.findIndex(p => p.status === 'fulfilled');
  if (completedIndex !== -1) {
    uploadPromises.splice(completedIndex, 1);
  }
}
```

`await Promise.race` resumes at `max time (minSettle promises)`: it
returns immediately when some promise in the array has already settled,
and otherwise waits for the earliest settlement. -/
def uploadPartsStep (dur : ℕ → ℕ) (st : UPLoop) (partNumber : ℕ) : UPLoop :=
  let prom : Prom := ⟨partNumber, st.time, st.time + dur partNumber⟩
  let promises := st.uploadPromises ++ [prom]
  let launched := st.launched ++ [prom]
  if promises.length ≥ CONCURRENT_UPLOADS then
    let t := max st.time (minSettle promises)
    match promises.findIdx? promStatusFulfilled with
    | some i => ⟨t, promises.eraseIdx i, launched⟩
    | none => ⟨t, promises, launched⟩
  else
    ⟨st.time, promises, launched⟩

/-- The whole `uploadParts` loop over part numbers `1..numParts`
(the final `await Promise.all` only advances time further and launches
nothing, so it is irrelevant to the in-flight count). -/
def uploadPartsRun (dur : ℕ → ℕ) (nParts : ℕ) : UPLoop :=
  ((List.range nParts).map (· + 1)).foldl (uploadPartsStep dur) ⟨0, [], []⟩

/-- Number of part uploads simultaneously pending at time `t`: launched
at or before `t` and not yet settled. -/
def inFlightAt (launched : List Prom) (t : ℕ) : ℕ :=
  (launched.filter fun p => p.startT ≤ t && t < p.settleT).length

/-- A duration assignment exhibiting the concurrency bug: part 1
finishes after 1 time unit, every other part takes 100. -/
def durOneFast : ℕ → ℕ := fun k => if k = 1 then 1 else 100

/-- `pat` is a leading segment of `s` (character lists). -/
def leadEq : List Char → List Char → Bool
  | [], _ => true
  | _ :: _, [] => false
  | c :: cs, d :: ds => c == d && leadEq cs ds

/-- Does `s` contain `pat` as a contiguous segment? -/
def hasSegAux : List Char → List Char → Bool
  | pat, [] => leadEq pat []
  | pat, s@(_ :: rest) => leadEq pat s || hasSegAux pat rest

/-- JS `s.includes(pat)`. -/
def strContains (s pat : String) : Bool := hasSegAux pat.data s.data

/-- JS `s.startsWith(pat)`. -/
def strStartsWith (s pat : String) : Bool := leadEq pat.data s.data

/-- JS `s.endsWith(pat)`. -/
def strEndsWith (s pat : String) : Bool := leadEq pat.data.reverse s.data.reverse

/-- JS `s.replace(pat, repl)` with a string pattern: replace the first
occurrence only.  The empty-pattern case (JS would prepend `repl`) is
unreachable here: the only call site uses `pat = path + "/"`. -/
def replaceFirstAux (pat repl : List Char) : List Char → List Char
  | [] => []
  | s@(c :: rest) =>
    if leadEq pat s then repl ++ s.drop pat.length
    else c :: replaceFirstAux pat repl rest

/-- JS `s.replace(pat, repl)` (first occurrence). -/
def jsReplace (s pat repl : String) : String :=
  ⟨replaceFirstAux pat.data repl.data s.data⟩

/-- JS `s.split(c)` for a one-character separator: every occurrence
splits, empty segments kept, and the empty string yields `[""]`. -/
def jsSplitAux (c : Char) : List Char → List Char → List String
  | [], acc => [⟨acc.reverse⟩]
  | d :: rest, acc =>
    if d == c then String.mk acc.reverse :: jsSplitAux c rest []
    else jsSplitAux c rest (d :: acc)

/-- JS `s.split(c)`. -/
def jsSplit (s : String) (c : Char) : List String := jsSplitAux c s.data []

/-! ### JSON values and `localStorage` (`UploadStateManager`, App.js lines 157-325) -/

/-- A JSON value, as produced by `JSON.parse` on plain data. -/
inductive JVal where
  | null
  | bool (b : Bool)
  | num (q : ℚ)
  | str (s : String)
  | arr (elems : List JVal)
  | obj (fields : List (String × JVal))

/-- Object field lookup, `o.f` on a plain JSON object. -/
def objGet : List (String × JVal) → String → Option JVal
  | [], _ => none
  | (k, v) :: rest, f => if k = f then some v else objGet rest f

/-- The effect of the spread `{...state, f: v}` on field `f`: if `f` is
already a key of `state` its value is replaced in place (JS property
order keeps the original slot), otherwise `f` is appended. -/
def objSet : List (String × JVal) → String → JVal → List (String × JVal)
  | [], f, v => [(f, v)]
  | (k, w) :: rest, f, v =>
    if k = f then (k, v) :: rest else (k, w) :: objSet rest f v

/-- JS truthiness of a JSON value: `null`, `false`, `0` and `""` are
falsy (`NaN` does not survive `JSON.parse`), everything else truthy. -/
def jvTruthy : JVal → Bool
  | .null => false
  | .bool b => b
  | .num q => q != 0
  | .str s => s != ""
  | .arr _ => true
  | .obj _ => true

/-- `localStorage` as an association list; a value `some v` models a
stored string that `JSON.parse` reads back as `v`, and `none` models a
stored string that is not valid JSON (`JSON.parse` throws on it). -/
abbrev LocalStore : Type := List (String × Option JVal)

/-- `localStorage.setItem`: overwrite in place or append. -/
def lsSet : LocalStore → String → Option JVal → LocalStore
  | [], key, v => [(key, v)]
  | (k, w) :: rest, key, v =>
    if k = key then (k, v) :: rest else (k, w) :: lsSet rest key v

/-- `localStorage.getItem`: `none` when the key is absent (JS `null`). -/
def lsGet : LocalStore → String → Option (Option JVal)
  | [], _ => none
  | (k, v) :: rest, key => if k = key then some v else lsGet rest key

/-- `localStorage.removeItem`. -/
def lsRemove (store : LocalStore) (key : String) : LocalStore :=
  store.filter fun kv => !(kv.1 == key)

/-- `saveUploadState(uploadId, state)` (App.js lines 283-290): store
`JSON.stringify({...state, lastUpdated: Date.now()})` under key
`'upload-' + uploadId`.  (`notifyProgress` only calls listeners and
does not touch `localStorage`.) -/
def saveUploadState (store : LocalStore) (uploadId : String)
    (state : List (String × JVal)) (now : ℚ) : LocalStore :=
  lsSet store ("upload-" ++ uploadId)
    (some (JVal.obj (objSet state "lastUpdated" (JVal.num now))))

/-- `getUploadState(uploadId)` (App.js lines 292-295):
`state ? JSON.parse(state) : null`.  An absent key gives `null`; an
unparseable stored string would make `JSON.parse` throw, a path no call
site reaches because only `saveUploadState` writes these keys. -/
def getUploadState (store : LocalStore) (uploadId : String) : Option JVal :=
  match lsGet store ("upload-" ++ uploadId) with
  | some (some v) => some v
  | _ => none

/-- `removeUploadState(uploadId)` (App.js lines 297-300); the
`activeUploads` map it also touches is not part of `localStorage`. -/
def removeUploadState (store : LocalStore) (uploadId : String) : LocalStore :=
  lsRemove store ("upload-" ++ uploadId)

/-- `getAllUploadStates()` (App.js lines 302-316): every `localStorage`
entry whose key starts with the `'upload-'` storage prefix, paired with
its parse result (`none` when `JSON.parse` threw and the `catch` pushed
`state: null`). -/
def getAllUploadStates (store : LocalStore) : List (String × Option JVal) :=
  store.filter fun kv => strStartsWith kv.1 "upload-"

/-- Field access `state.f` where `state` may be `null` or a non-object. -/
def stateField (state : Option JVal) (f : String) : Option JVal :=
  match state with
  | some (JVal.obj fields) => objGet fields f
  | _ => none

/-- JS truthiness of `state.f` (absent fields are `undefined`, falsy). -/
def stateFieldTruthy (state : Option JVal) (f : String) : Bool :=
  match stateField state f with
  | some v => jvTruthy v
  | none => false

/-- The comparison `state.timestamp < staleThreshold`.  When the field
is absent the JS comparison is `undefined < number`, which is `false`.
Non-numeric field values (which JS `<` would coerce) never occur in
states this app saves, and are mapped to `false` as well. -/
def timestampLt (state : Option JVal) (threshold : ℚ) : Bool :=
  match stateField state "timestamp" with
  | some (JVal.num q) => q < threshold
  | _ => false

/-- `shouldRemoveItem(state, staleThreshold)` (App.js lines 254-259):
```
if (!state) return true;
if (state.completed && state.timestamp < staleThreshold) return true;
if (state.failed && state.timestamp < staleThreshold) return true;
return !state.completed && !state.failed && state.timestamp < staleThreshold;
```
-/
def shouldRemoveItem (state : Option JVal) (staleThreshold : ℚ) : Bool :=
  if !(match state with | some v => jvTruthy v | none => false) then true
  else if stateFieldTruthy state "completed" && timestampLt state staleThreshold then true
  else if stateFieldTruthy state "failed" && timestampLt state staleThreshold then true
  else !stateFieldTruthy state "completed" && !stateFieldTruthy state "failed" &&
    timestampLt state staleThreshold

/-- `performCleanup()` (App.js lines 227-252): snapshot the upload
states, compute `staleThreshold = now - STALE_THRESHOLD_HOURS hours` in
milliseconds, and remove from `localStorage` every snapshot entry for
which `shouldRemoveItem` holds.  The batching and `setTimeout(0)` yields
only pace the loop, and `abortMultipartUpload` catches its own errors
and touches only `Storage`/`activeUploads`, so neither affects which
`localStorage` keys are removed. -/
def performCleanup (store : LocalStore) (now : ℚ) : LocalStore :=
  let staleThreshold := now - (STALE_THRESHOLD_HOURS : ℚ) * 60 * 60 * 1000
  let states := getAllUploadStates store
  states.foldl
    (fun st kv => if shouldRemoveItem kv.2 staleThreshold then lsRemove st kv.1 else st)
    store

/-- A concrete store holding one upload record saved at epoch time 0:
the shape `saveUploadState` + `initializeUpload` produce (App.js lines
483-489) — fields `uploadId`, `path`, `startTime`, `completed`,
`failed`, plus the `lastUpdated` stamp; no `timestamp` field. -/
def staleRecordStore : LocalStore :=
  [("upload-u1",
    some (JVal.obj
      [("uploadId", JVal.str "u1"), ("path", JVal.str "docs/a.bin"),
       ("startTime", JVal.num 0), ("completed", JVal.bool true),
       ("failed", JVal.bool false), ("lastUpdated", JVal.num 0)]))]

/-! ### `handleFileSelect` (App.js lines 1347-1372) -/

/-- A member of the `FileList` handed to `handleFileSelect`. -/
structure SelFile where
  name : String
  size : ℕ
  mime : String
  webkitRelativePath : String
  deriving Repr, DecidableEq

/-- An entry of `tempUploadList` (App.js lines 1360-1367). -/
structure UploadToken where
  label : String
  labelTag : String
  description : String
  icon : String
  id : String
  path : String
  deriving Repr, DecidableEq

/-- The component state `handleFileSelect` reads and writes. -/
structure SelectState where
  uploadList : List UploadToken
  fileList : List SelFile
  alertMessage : String
  visibleAlert : Bool
  deriving Repr, DecidableEq

/-- The `for (let i = 0; ...)` loop of `handleFileSelect`: `remaining`
is the unprocessed suffix of `allFiles`, `i` the current index, `temp`
the accumulated `tempUploadList`.  An oversized file triggers
`setAlertMessage(...)`, `setVisibleAlert(true)` and `return`, leaving
`uploadList` and `fileList` untouched; only after the whole loop does
`setUploadList(tempUploadList); setFileList(Array.from(files))` run. -/
def handleFileSelectGo (P : JsPrim) (now : ℕ) (isFolder : Bool)
    (allFiles : List SelFile) (st : SelectState) :
    List SelFile → ℕ → List UploadToken → SelectState
  | [], _, temp => { st with uploadList := temp, fileList := allFiles }
  | f :: rest, i, temp =>
    if f.size > MAX_FILE_SIZE then
      { st with
        alertMessage := "File " ++ f.name ++ " is larger than 5TB"
        visibleAlert := true }
    else
      let path := if isFolder then f.webkitRelativePath else f.name
      handleFileSelectGo P now isFolder allFiles st rest (i + 1)
        (temp ++ [{ label := path
                    labelTag := formatBytes P (some f.size)
                    description := "File type: " ++ f.mime
                    icon := "file"
                    id := "upload-" ++ toString now ++ "-" ++ toString i
                    path := path }])

/-- `handleFileSelect(e, isFolder = false)` (App.js lines 1347-1372),
with `e.target.files` passed explicitly and `Date.now()` as `now`. -/
def handleFileSelect (P : JsPrim) (now : ℕ) (isFolder : Bool)
    (files : List SelFile) (st : SelectState) : SelectState :=
  handleFileSelectGo P now isFolder files st files 0 []

/-! ### `listBucketContents` (App.js lines 1238-1345) -/

/-- One object returned by `Storage.list` (`result.results`). -/
structure S3Object where
  key : String
  size : ℚ
  contentType : Option String
  lastModified : ℚ
  deriving Repr, DecidableEq

/-- One row of the processed listing. -/
structure BucketEntry where
  key : String
  displayName : String
  size : ℚ
  isFolder : Bool
  lastModified : ℚ
  deriving Repr, DecidableEq

/-- The `processedItems` `Map` (insertion-ordered, keyed by name). -/
abbrev ProcMap : Type := List (String × BucketEntry)

/-- `Map.prototype.has`. -/
def pmHas (pm : ProcMap) (name : String) : Bool :=
  pm.any fun kv => kv.1 == name

/-- `Map.prototype.set`: replace in place, or append a new binding. -/
def pmSet : ProcMap → String → BucketEntry → ProcMap
  | [], name, e => [(name, e)]
  | (k, w) :: rest, name, e =>
    if k = name then (k, e) :: rest else (k, w) :: pmSet rest name e

/-- `relativePath = path ? item.key.replace(`${path}/`, '') : item.key`. -/
def relativePathOf (path key : String) : String :=
  if path ≠ "" then jsReplace key (path ++ "/") "" else key

/-- First pass over `items` (App.js lines 1260-1289): record explicit
folder markers (`key` ending in `/`, directory content type, or size
exactly `0`). -/
def listPass1 (path : String) (pm : ProcMap) (item : S3Object) : ProcMap :=
  if item.key = "" then pm
  else if item.key = path || strContains item.key ".keep" ||
      strEndsWith item.key "/.keep" then pm
  else
    let relativePath := relativePathOf path item.key
    let parts := jsSplit relativePath '/'
    if strEndsWith item.key "/" || item.contentType == some "application/x-directory" ||
        item.size == 0 then
      let folderName := parts.headD ""
      if folderName ≠ "" && !strContains folderName ".keep" && !pmHas pm folderName then
        pmSet pm folderName
          { key := if path = "" then folderName else path ++ "/" ++ folderName
            displayName := folderName
            size := 0
            isFolder := true
            lastModified := item.lastModified }
      else pm
    else pm

/-- Second pass over `items` (App.js lines 1292-1326): add files in the
current directory and implicit folders from deeper keys. -/
def listPass2 (path : String) (pm : ProcMap) (item : S3Object) : ProcMap :=
  if item.key = "" then pm
  else if item.key = path || strEndsWith item.key "/" ||
      strEndsWith item.key "/.keep" ||
      item.contentType == some "application/x-directory" then pm
  else
    let relativePath := relativePathOf path item.key
    let parts := jsSplit relativePath '/'
    if parts.length = 1 then
      pmSet pm (parts.headD "")
        { key := item.key
          displayName := parts.headD ""
          size := item.size
          isFolder := false
          lastModified := item.lastModified }
    else if parts.length > 1 then
      let folderName := parts.headD ""
      if !strContains folderName ".keep" && !pmHas pm folderName then
        pmSet pm folderName
          { key := if path = "" then folderName else path ++ "/" ++ folderName
            displayName := folderName
            size := 0
            isFolder := true
            lastModified := item.lastModified }
      else pm
    else pm

/-- The comparator of the final `.sort` (App.js lines 1330-1334), with
`localeCompare` abstracted as `lc`:
```
if (a.isFolder && !b.isFolder) return -1;
if (!a.isFolder && b.isFolder) return 1;
return a.displayName.localeCompare(b.displayName);
```
-/
def entryCmp (lc : String → String → ℤ) (a b : BucketEntry) : ℤ :=
  if a.isFolder && !b.isFolder then -1
  else if !a.isFolder && b.isFolder then 1
  else lc a.displayName b.displayName

/-- The processing pipeline of `listBucketContents` (App.js lines
1256-1334): two passes building `processedItems`, then
`Array.from(processedItems.values()).filter(...).sort(...)`.  A
comparator-driven `Array.prototype.sort` with a consistent comparator
produces a list in which no later element compares below an earlier
one; insertion sort by `entryCmp · · ≤ 0` realizes that guarantee. -/
def listBucketContents (lc : String → String → ℤ) (path : String)
    (items : List S3Object) : List BucketEntry :=
  let pm1 := items.foldl (listPass1 path) []
  let pm2 := items.foldl (listPass2 path) pm1
  let vals := pm2.map (fun kv => kv.2)
  let filtered := vals.filter fun it => !strContains it.displayName ".keep"
  List.insertionSort (fun a b => entryCmp lc a b ≤ 0) filtered

/-! ### Concrete fixtures used by the witness theorems -/

/-- A trivial interpretation of the opaque JS runtime primitives. -/
def P0 : JsPrim :=
  { log := fun _ => none
    pow := fun _ _ => none
    div := fun _ _ => none
    floor := fun _ => none
    toFixed := fun _ _ => ""
    parseFloat := fun _ => none
    numToStr := fun _ => "" }

/-- A (degenerate but consistent) locale comparison: everything equal. -/
def lcEqual : String → String → ℤ := fun _ _ => 0

/-- A small bucket listing: a `.keep` marker, a file, and a folder. -/
def sampleListing : List S3Object :=
  [{ key := "docs/.keep", size := 0, contentType := none, lastModified := 1 },
   { key := "notes.txt", size := 7, contentType := none, lastModified := 2 },
   { key := "docs/inner.txt", size := 3, contentType := none, lastModified := 3 }]

/-- A concrete handler over a one-byte file in its freshly initialized
parts state. -/
def sampleHandler : Handler :=
  { uploadId := "upload-1-x"
    path := "a.bin"
    fileName := "a.bin"
    fileSize := 1
    numParts := numParts 1
    startTime := 0
    bytesUploaded := 0
    uploadSpeed := 0
    lastSpeedUpdate := 0
    parts := initializePartTracking 1
    aborted := false }

/-! ## Theorems -/

/-- `numParts` is the ceiling of `fileSize / CHUNK_SIZE` for positive
sizes, characterized by its two bounding inequalities. -/
theorem numParts_bounds (s : ℕ) (hs : 0 < s) :
    (numParts s - 1) * CHUNK_SIZE < s ∧ s ≤ numParts s * CHUNK_SIZE := by
  unfold numParts CHUNK_SIZE
  omega

/-- The chunk sizes `min C (s - i*C)` for `i < n` add up to `s` when
`n` is the ceiling of `s / C` (stated via its bounding inequalities). -/
theorem chunkSizes_sum :
    ∀ (n s : ℕ), 0 < s → (n - 1) * CHUNK_SIZE < s → s ≤ n * CHUNK_SIZE →
    ((List.range n).map (fun i => min CHUNK_SIZE (s - i * CHUNK_SIZE))).sum = s := by
  intro n
  induction n with
  | zero =>
    intro s hs _ h3
    simp only [Nat.zero_mul, Nat.le_zero] at h3
    omega
  | succ m ih =>
    intro s hs h2 h3
    rw [List.range_succ_eq_map, List.map_cons, List.sum_cons, List.map_map]
    have hfun : ((fun i => min CHUNK_SIZE (s - i * CHUNK_SIZE)) ∘ Nat.succ) =
        (fun i => min CHUNK_SIZE ((s - CHUNK_SIZE) - i * CHUNK_SIZE)) := by
      funext i
      simp only [Function.comp_apply]
      have : Nat.succ i * CHUNK_SIZE = i * CHUNK_SIZE + CHUNK_SIZE := Nat.succ_mul i _
      unfold CHUNK_SIZE at *
      omega
    rw [hfun]
    match m with
    | 0 =>
      simp only [List.range_zero, List.map_nil, List.sum_nil]
      unfold CHUNK_SIZE at *
      omega
    | k + 1 =>
      have hCs : CHUNK_SIZE < s := by
        have := h2
        unfold CHUNK_SIZE at *
        omega
      rw [ih (s - CHUNK_SIZE) (by omega) (by unfold CHUNK_SIZE at *; omega)
        (by unfold CHUNK_SIZE at *; omega)]
      unfold CHUNK_SIZE at *
      omega

/-- There are exactly `numParts s` tracked parts. -/
theorem initializePartTracking_length (s : ℕ) :
    (initializePartTracking s).length = numParts s := by
  simp [initializePartTracking]

/-- Closed form of the `i`-th tracked part. -/
theorem initializePartTracking_getElem (s i : ℕ)
    (hi : i < (initializePartTracking s).length) :
    (initializePartTracking s)[i] =
      { partNumber := i + 1
        startByte := i * CHUNK_SIZE
        endByte := min ((i + 1) * CHUNK_SIZE) s
        progress := 0
        status := "pending"
        completed := false
        inProgress := false
        error := none
        startTime := none
        endTime := none
        bytesUploaded := 0
        size := min CHUNK_SIZE (s - i * CHUNK_SIZE) } := by
  unfold initializePartTracking
  rw [List.getElem_map, List.getElem_range]

/-- Sizes of the tracked parts, as a function of the index. -/
theorem initializePartTracking_sizes (s : ℕ) :
    (initializePartTracking s).map (fun p => p.size) =
    (List.range (numParts s)).map (fun i => min CHUNK_SIZE (s - i * CHUNK_SIZE)) := by
  unfold initializePartTracking
  rw [List.map_map]
  rfl

/-- C4: for every file of size `s > 0`, `initializePartTracking` creates
exactly `⌈s / CHUNK_SIZE⌉` parts (characterized by the two bounding
inequalities on `numParts`), numbered `1..numParts`, where part `i+1`
spans `startByte i*CHUNK_SIZE` to `endByte min ((i+1)*CHUNK_SIZE) s`;
each part is non-degenerate, consecutive parts are contiguous (hence
non-overlapping), and the sizes add up to `s`. -/
theorem C4_part_layout (s : ℕ) (hs : 0 < s) :
    (initializePartTracking s).length = numParts s ∧
    (numParts s - 1) * CHUNK_SIZE < s ∧ s ≤ numParts s * CHUNK_SIZE ∧
    (∀ i (hi : i < (initializePartTracking s).length),
      (initializePartTracking s)[i].partNumber = i + 1 ∧
      (initializePartTracking s)[i].startByte = i * CHUNK_SIZE ∧
      (initializePartTracking s)[i].endByte = min ((i + 1) * CHUNK_SIZE) s ∧
      (initializePartTracking s)[i].size =
        (initializePartTracking s)[i].endByte - (initializePartTracking s)[i].startByte ∧
      (initializePartTracking s)[i].startByte < (initializePartTracking s)[i].endByte) ∧
    (∀ i (hi : i + 1 < (initializePartTracking s).length),
      ((initializePartTracking s).get ⟨i, Nat.lt_of_succ_lt hi⟩).endByte =
      ((initializePartTracking s).get ⟨i + 1, hi⟩).startByte) ∧
    ((initializePartTracking s).map (fun p => p.size)).sum = s := by
  obtain ⟨hb1, hb2⟩ := numParts_bounds s hs
  have hlen := initializePartTracking_length s
  refine ⟨hlen, hb1, hb2, ?_, ?_, ?_⟩
  · intro i hi
    rw [initializePartTracking_getElem s i hi]
    have hiN : i < numParts s := by omega
    refine ⟨rfl, rfl, rfl, ?_, ?_⟩
    · show min CHUNK_SIZE (s - i * CHUNK_SIZE) = min ((i + 1) * CHUNK_SIZE) s - i * CHUNK_SIZE
      have h1 : (i + 1) * CHUNK_SIZE = i * CHUNK_SIZE + CHUNK_SIZE := by ring
      have h2 : i * CHUNK_SIZE ≤ (numParts s - 1) * CHUNK_SIZE :=
        Nat.mul_le_mul_right _ (by omega)
      omega
    · show i * CHUNK_SIZE < min ((i + 1) * CHUNK_SIZE) s
      have h1 : (i + 1) * CHUNK_SIZE = i * CHUNK_SIZE + CHUNK_SIZE := by ring
      have h2 : i * CHUNK_SIZE ≤ (numParts s - 1) * CHUNK_SIZE :=
        Nat.mul_le_mul_right _ (by omega)
      unfold CHUNK_SIZE at *
      omega
  · intro i hi
    rw [List.get_eq_getElem, List.get_eq_getElem,
      initializePartTracking_getElem s i (Nat.lt_of_succ_lt hi),
      initializePartTracking_getElem s (i + 1) hi]
    show min ((i + 1) * CHUNK_SIZE) s = (i + 1) * CHUNK_SIZE
    have h2 : (i + 1) * CHUNK_SIZE ≤ (numParts s - 1) * CHUNK_SIZE :=
      Nat.mul_le_mul_right _ (by omega)
    omega
  · rw [initializePartTracking_sizes s]
    exact chunkSizes_sum (numParts s) s hs hb1 hb2

/-- Witness for `C4_part_layout` at a concrete three-part file size
(`2 * CHUNK_SIZE + 5` bytes). -/
theorem C4_part_layout_witness :
    0 < 2 * CHUNK_SIZE + 5 ∧
    ((initializePartTracking (2 * CHUNK_SIZE + 5)).map (fun p => p.size)).sum =
      2 * CHUNK_SIZE + 5 :=
  ⟨by decide, (C4_part_layout (2 * CHUNK_SIZE + 5) (by decide)).2.2.2.2.2⟩

/-- C10: the `formatBytes` function of the first App.js variant (lines
74-80) and the one of the second variant (lines 2102-2107) are
extensionally equal — for every interpretation of the opaque runtime
primitives and every input `(a, b, k)` they return the same string —
and both return `"0 Bytes"` for `0` and `"N/A"` for the other falsy
inputs (modelled by `none`). -/
theorem C10_formatBytes_variants_equal (P : JsPrim) (a : JsNum) (b : ℤ) (k : JsNum) :
    formatBytes P a b k = formatBytesSecond P a b k ∧
    formatBytes P (some 0) b k = "0 Bytes" ∧
    formatBytesSecond P (some 0) b k = "0 Bytes" ∧
    formatBytes P none b k = "N/A" ∧
    formatBytesSecond P none b k = "N/A" := by
  refine ⟨rfl, ?_, ?_, ?_, ?_⟩ <;>
    simp [formatBytes, formatBytesSecond, jsNumFalsy]

/-- Setting a `localStorage` key and reading it back yields the value. -/
theorem lsGet_lsSet (store : LocalStore) (key : String) (v : Option JVal) :
    lsGet (lsSet store key v) key = some v := by
  induction store with
  | nil => simp [lsSet, lsGet]
  | cons kv rest ih =>
    obtain ⟨k, w⟩ := kv
    by_cases h : k = key
    · simp [lsSet, lsGet, h]
    · simp [lsSet, lsGet, h, ih]

/-- After removing a key, reading it yields nothing. -/
theorem lsGet_lsRemove (store : LocalStore) (key : String) :
    lsGet (lsRemove store key) key = none := by
  induction store with
  | nil => rfl
  | cons kv rest ih =>
    obtain ⟨k, w⟩ := kv
    by_cases h : k = key
    · simpa [lsRemove, lsGet, h] using ih
    · simpa [lsRemove, lsGet, h] using ih

/-- The field written by the spread is read back. -/
theorem objGet_objSet_self (fields : List (String × JVal)) (f : String) (v : JVal) :
    objGet (objSet fields f v) f = some v := by
  induction fields with
  | nil => simp [objSet, objGet]
  | cons kv rest ih =>
    obtain ⟨k, w⟩ := kv
    by_cases h : k = f
    · simp [objSet, objGet, h]
    · simp [objSet, objGet, h, ih]

/-- Fields other than the one written by the spread are unchanged. -/
theorem objGet_objSet_other (fields : List (String × JVal)) (f g : String) (v : JVal)
    (hgf : g ≠ f) :
    objGet (objSet fields f v) g = objGet fields g := by
  induction fields with
  | nil =>
    simp only [objSet, objGet]
    rw [if_neg (fun h => hgf h.symm)]
  | cons kv rest ih =>
    obtain ⟨k, w⟩ := kv
    simp only [objSet]
    by_cases h : k = f
    · rw [if_pos h]
      simp only [objGet]
      rw [if_neg (fun hk : k = g => hgf (hk ▸ h)),
        if_neg (fun hk : k = g => hgf (hk ▸ h))]
    · rw [if_neg h]
      simp only [objGet]
      by_cases hkg : k = g
      · rw [if_pos hkg, if_pos hkg]
      · rw [if_neg hkg, if_neg hkg]
        exact ih

/-- C6: for every `uploadId` and state object `s`, `saveUploadState`
followed by `getUploadState` returns `s` extended with a `lastUpdated`
timestamp — every other field of `s` unchanged — and after
`removeUploadState` the state reads back as `null` (`none`). -/
theorem C6_state_roundtrip (store : LocalStore) (uploadId : String)
    (state : List (String × JVal)) (now : ℚ) (f : String) (hf : f ≠ "lastUpdated") :
    getUploadState (saveUploadState store uploadId state now) uploadId =
      some (JVal.obj (objSet state "lastUpdated" (JVal.num now))) ∧
    objGet (objSet state "lastUpdated" (JVal.num now)) "lastUpdated" =
      some (JVal.num now) ∧
    objGet (objSet state "lastUpdated" (JVal.num now)) f = objGet state f ∧
    getUploadState
      (removeUploadState (saveUploadState store uploadId state now) uploadId)
      uploadId = none := by
  refine ⟨?_, objGet_objSet_self _ _ _, objGet_objSet_other _ _ _ _ hf, ?_⟩
  · unfold getUploadState saveUploadState
    rw [lsGet_lsSet]
  · unfold getUploadState removeUploadState
    rw [lsGet_lsRemove]

/-- Witness for `C6_state_roundtrip` on a one-field state object. -/
theorem C6_state_roundtrip_witness :
    "fileName" ≠ "lastUpdated" ∧
    (getUploadState (saveUploadState [] "u7" [("fileName", JVal.str "a.bin")] 5) "u7" =
      some (JVal.obj (objSet [("fileName", JVal.str "a.bin")] "lastUpdated" (JVal.num 5))) ∧
    objGet (objSet [("fileName", JVal.str "a.bin")] "lastUpdated" (JVal.num 5))
      "lastUpdated" = some (JVal.num 5) ∧
    objGet (objSet [("fileName", JVal.str "a.bin")] "lastUpdated" (JVal.num 5))
      "fileName" = objGet [("fileName", JVal.str "a.bin")] "fileName" ∧
    getUploadState
      (removeUploadState (saveUploadState [] "u7" [("fileName", JVal.str "a.bin")] 5) "u7")
      "u7" = none) :=
  ⟨by decide, C6_state_roundtrip [] "u7" [("fileName", JVal.str "a.bin")] 5 "fileName"
    (by decide)⟩

/-- If some unprocessed file is oversized, the `handleFileSelect` loop
returns with an alert and the original `uploadList` / `fileList`. -/
theorem handleFileSelectGo_oversize (P : JsPrim) (now : ℕ) (isFolder : Bool)
    (allFiles : List SelFile) (st : SelectState) :
    ∀ (rem : List SelFile) (i : ℕ) (temp : List UploadToken),
    (∃ f ∈ rem, f.size > MAX_FILE_SIZE) →
    (handleFileSelectGo P now isFolder allFiles st rem i temp).uploadList =
      st.uploadList ∧
    (handleFileSelectGo P now isFolder allFiles st rem i temp).fileList =
      st.fileList ∧
    (handleFileSelectGo P now isFolder allFiles st rem i temp).visibleAlert = true := by
  intro rem
  induction rem with
  | nil =>
    rintro i temp ⟨f, hf, -⟩
    exact absurd hf (List.not_mem_nil f)
  | cons g rest ih =>
    rintro i temp ⟨f, hf, hsize⟩
    by_cases hg : g.size > MAX_FILE_SIZE
    · simp [handleFileSelectGo, hg]
    · rcases List.mem_cons.mp hf with hfg | hfr
      · exact absurd (hfg ▸ hsize) hg
      · simpa [handleFileSelectGo, hg] using ih (i + 1) _ ⟨f, hfr, hsize⟩

/-- C9: if any file of the selection passed to `handleFileSelect` has
size strictly greater than `MAX_FILE_SIZE` (5 TB), the function sets
the error alert and returns without modifying `uploadList` or
`fileList`: no file of the selection is queued. -/
theorem C9_oversize_selection_rejected (P : JsPrim) (now : ℕ) (isFolder : Bool)
    (files : List SelFile) (st : SelectState)
    (h : ∃ f ∈ files, f.size > MAX_FILE_SIZE) :
    (handleFileSelect P now isFolder files st).uploadList = st.uploadList ∧
    (handleFileSelect P now isFolder files st).fileList = st.fileList ∧
    (handleFileSelect P now isFolder files st).visibleAlert = true :=
  handleFileSelectGo_oversize P now isFolder files st files 0 [] h

/-- Witness for `C9_oversize_selection_rejected`: a two-file selection
whose second file is one byte over the 5 TB limit. -/
theorem C9_oversize_selection_rejected_witness :
    (∃ f ∈ [({ name := "ok.txt", size := 10, mime := "text/plain",
                webkitRelativePath := "" } : SelFile),
             { name := "big.bin", size := MAX_FILE_SIZE + 1,
               mime := "application/octet-stream", webkitRelativePath := "" }],
      f.size > MAX_FILE_SIZE) ∧
    ((handleFileSelect P0 3 false
        [{ name := "ok.txt", size := 10, mime := "text/plain",
           webkitRelativePath := "" },
         { name := "big.bin", size := MAX_FILE_SIZE + 1,
           mime := "application/octet-stream", webkitRelativePath := "" }]
        { uploadList := [], fileList := [], alertMessage := "", visibleAlert := false
          }).uploadList = [] ∧
     (handleFileSelect P0 3 false
        [{ name := "ok.txt", size := 10, mime := "text/plain",
           webkitRelativePath := "" },
         { name := "big.bin", size := MAX_FILE_SIZE + 1,
           mime := "application/octet-stream", webkitRelativePath := "" }]
        { uploadList := [], fileList := [], alertMessage := "", visibleAlert := false
          }).fileList = [] ∧
     (handleFileSelect P0 3 false
        [{ name := "ok.txt", size := 10, mime := "text/plain",
           webkitRelativePath := "" },
         { name := "big.bin", size := MAX_FILE_SIZE + 1,
           mime := "application/octet-stream", webkitRelativePath := "" }]
        { uploadList := [], fileList := [], alertMessage := "", visibleAlert := false
          }).visibleAlert = true) :=
  ⟨by decide, C9_oversize_selection_rejected P0 3 false _ _ (by decide)⟩

/-- C1 evaluation: running the `uploadParts` loop on a six-part file in
which part 1 settles after 1 time unit and every other part after 100,
five part uploads are simultaneously pending at time 2 — the
`findIndex(p => p.status === 'fulfilled')` splice never fires, so once
any promise settles `Promise.race` returns immediately and the loop
keeps launching parts past the `CONCURRENT_UPLOADS` bound. -/
theorem C1_concurrency_bound_violated :
    inFlightAt (uploadPartsRun durOneFast 6).launched 2 = 5 ∧
    CONCURRENT_UPLOADS < inFlightAt (uploadPartsRun durOneFast 6).launched 2 := by
  decide

/-- C2 evaluation: a parseable upload record saved at epoch time 0 and
examined more than 11 days later (far beyond the 24-hour stale
threshold) is retained by `performCleanup`, because `shouldRemoveItem`
tests `state.timestamp` — a field no saved state contains — and the JS
comparison `undefined < staleThreshold` is `false`. -/
theorem C2_stale_record_retained :
    performCleanup staleRecordStore 1000000000 = staleRecordStore ∧
    shouldRemoveItem (staleRecordStore.head?.map (fun kv => kv.2) |>.join)
      (1000000000 - (STALE_THRESHOLD_HOURS : ℚ) * 60 * 60 * 1000) = false := by
  exact ⟨rfl, rfl⟩

/-- `updatePartProgress` never changes the number of parts. -/
theorem updatePartProgress_length (ps : List PartRec) (n : ℕ) (prog : ℚ)
    (st : String) (err : Option String) (now : ℚ) :
    (updatePartProgress ps n prog st err now).length = ps.length := by
  unfold updatePartProgress
  by_cases h : n = 0
  · simp [h]
  · simp only [h, if_false]
    rcases heq : ps[n - 1]? with - | old
    · simp [heq]
    · simp [heq, List.length_set]

/-- The updated slot of `updatePartProgress`, as a `Option.map` over the
old slot. -/
theorem updatePartProgress_getElem_self (ps : List PartRec) (n : ℕ) (prog : ℚ)
    (st : String) (err : Option String) (now : ℚ) (hn : n ≠ 0) :
    (updatePartProgress ps n prog st err now)[n - 1]? =
      (ps[n - 1]?).map fun old =>
        { old with
          progress := prog
          status := st
          inProgress := st == "uploading"
          completed := st == "completed"
          error := err
          startTime := jsOrTime old.startTime
            (if st == "uploading" then some now else none)
          endTime := if st == "completed" then some now else none
          bytesUploaded := (prog / 100) * old.size } := by
  unfold updatePartProgress
  simp only [hn, if_false]
  rcases heq : ps[n - 1]? with - | old
  · simp [heq]
  · obtain ⟨hlt, -⟩ := List.getElem?_eq_some.mp heq
    simp [heq, List.getElem?_set_eq_of_lt _ hlt]

/-- Slots other than the updated one are unchanged. -/
theorem updatePartProgress_getElem_other (ps : List PartRec) (n : ℕ) (prog : ℚ)
    (st : String) (err : Option String) (now : ℚ) (j : ℕ) (hj : j ≠ n - 1) :
    (updatePartProgress ps n prog st err now)[j]? = ps[j]? := by
  unfold updatePartProgress
  by_cases h : n = 0
  · simp [h]
  · simp only [h, if_false]
    rcases heq : ps[n - 1]? with - | old
    · simp [heq]
    · simp [heq, List.getElem?_set_ne (fun he => hj he.symm)]

theorem uploadPartGo_spec (oracle : ℕ → Bool) (jitter : ℕ → ℚ) (path : String)
    (k : ℕ) (errMsg : String) (now : ℚ) :
    ∀ (fuel retries : ℕ) (delays : List ℚ) (parts : List PartRec),
    retries + fuel = MAX_RETRIES → retries < MAX_RETRIES →
    delays.length = retries →
    (∀ j, j < delays.length →
      delays[j]? = some (min (1000 * 2 ^ j) 32000 + jitter (j + 1))) →
    k ≠ 0 → k - 1 < parts.length →
    (uploadPartGo oracle jitter path k errMsg now fuel retries delays parts).delaysMs.length
        ≤ MAX_RETRIES - 1 ∧
    (∀ j, j < (uploadPartGo oracle jitter path k errMsg now fuel retries delays
        parts).delaysMs.length →
      (uploadPartGo oracle jitter path k errMsg now fuel retries delays parts).delaysMs[j]? =
        some (min (1000 * 2 ^ j) 32000 + jitter (j + 1))) ∧
    (uploadPartGo oracle jitter path k errMsg now fuel retries delays parts).parts.length =
      parts.length ∧
    ((uploadPartGo oracle jitter path k errMsg now fuel retries delays parts).success = false →
      (uploadPartGo oracle jitter path k errMsg now fuel retries delays parts).delaysMs.length =
        MAX_RETRIES - 1 ∧
      ((uploadPartGo oracle jitter path k errMsg now fuel retries delays
        parts).parts[k - 1]?).map (fun p => p.status) = some "error" ∧
      ((uploadPartGo oracle jitter path k errMsg now fuel retries delays
        parts).parts[k - 1]?).map (fun p => p.progress) = some 0) := by
  intro fuel
  induction fuel with
  | zero =>
    intro retries delays parts h1 h2 h3 h4 hk hkl
    exfalso
    unfold MAX_RETRIES at h1 h2
    omega
  | succ fuel ih =>
    intro retries delays parts h1 h2 h3 h4 hk hkl
    simp only [uploadPartGo]
    by_cases ho : oracle retries
    · simp only [ho, if_true]
      refine ⟨by unfold MAX_RETRIES at *; omega, h4, ?_, ?_⟩
      · rw [updatePartProgress_length, updatePartProgress_length]
      · intro hfalse
        simp at hfalse
    · simp only [ho, Bool.false_eq_true, if_false]
      by_cases hr : retries + 1 ≥ MAX_RETRIES
      · simp only [hr, if_true]
        have hlen1 : k - 1 <
            (updatePartProgress parts k 0 "uploading" none now).length := by
          rw [updatePartProgress_length]; exact hkl
        obtain ⟨old1, hsome⟩ :
            ∃ old1, (updatePartProgress parts k 0 "uploading" none now)[k - 1]? =
              some old1 := ⟨_, List.getElem?_eq_getElem hlen1⟩
        refine ⟨by unfold MAX_RETRIES at *; omega, h4, ?_, ?_⟩
        · rw [updatePartProgress_length, updatePartProgress_length]
        · intro _hsucc
          refine ⟨by unfold MAX_RETRIES at *; omega, ?_, ?_⟩
          · rw [updatePartProgress_getElem_self _ _ _ _ _ _ hk, hsome]
            simp
          · rw [updatePartProgress_getElem_self _ _ _ _ _ _ hk, hsome]
            simp
      · simp only [hr, if_false]
        have hidx : ∀ j,
            j < (delays ++ [min (1000 * 2 ^ (retries + 1 - 1)) 32000 +
              jitter (retries + 1)]).length →
            (delays ++ [min (1000 * 2 ^ (retries + 1 - 1)) 32000 +
              jitter (retries + 1)])[j]? =
              some (min (1000 * 2 ^ j) 32000 + jitter (j + 1)) := by
          intro j hj
          rw [List.length_append, List.length_singleton] at hj
          by_cases hjl : j < delays.length
          · rw [List.getElem?_append_left hjl]
            exact h4 j hjl
          · have hje : j = delays.length := by omega
            subst hje
            rw [List.getElem?_concat_length]
            rw [h3]
            simp
        have hrec := ih (retries + 1)
          (delays ++ [min (1000 * 2 ^ (retries + 1 - 1)) 32000 + jitter (retries + 1)])
          (updatePartProgress (updatePartProgress parts k 0 "uploading" none now) k 0
            "retrying"
            (some ("Retrying... (Attempt " ++ toString (retries + 1) ++ " of " ++
              toString MAX_RETRIES ++ ")")) now)
          (by unfold MAX_RETRIES at h1 ⊢; omega)
          (by unfold MAX_RETRIES at hr ⊢; omega)
          (by simp [h3])
          hidx hk
          (by rw [updatePartProgress_length, updatePartProgress_length]; exact hkl)
        obtain ⟨hA, hB, hC, hD⟩ := hrec
        exact ⟨hA, hB,
          by rw [hC, updatePartProgress_length, updatePartProgress_length], hD⟩

/-- C3 (amended): `uploadPart` makes at most `MAX_RETRIES` attempts,
i.e. retries a failed chunk up to `MAX_RETRIES - 1 = 4` times; the
`k`-th retry (1-based) sleeps `min (1000 * 2^(k-1)) 32000` milliseconds
plus the `Math.random() * 1000` jitter; and when the retry budget is
exhausted the call throws and the part's recorded status is `'error'`
with progress `0`. -/
theorem C3_retry_backoff (oracle : ℕ → Bool) (jitter : ℕ → ℚ) (path errMsg : String)
    (now : ℚ) (s k : ℕ) (hk1 : 1 ≤ k) (hk2 : k ≤ numParts s) :
    (uploadPart oracle jitter path k errMsg now
        (initializePartTracking s)).delaysMs.length ≤ MAX_RETRIES - 1 ∧
    (∀ j, j < (uploadPart oracle jitter path k errMsg now
        (initializePartTracking s)).delaysMs.length →
      (uploadPart oracle jitter path k errMsg now
        (initializePartTracking s)).delaysMs[j]? =
        some (min (1000 * 2 ^ j) 32000 + jitter (j + 1))) ∧
    ((uploadPart oracle jitter path k errMsg now
        (initializePartTracking s)).success = false →
      (uploadPart oracle jitter path k errMsg now
        (initializePartTracking s)).delaysMs.length = MAX_RETRIES - 1 ∧
      ((uploadPart oracle jitter path k errMsg now
        (initializePartTracking s)).parts[k - 1]?).map (fun p => p.status) =
          some "error" ∧
      ((uploadPart oracle jitter path k errMsg now
        (initializePartTracking s)).parts[k - 1]?).map (fun p => p.progress) =
          some 0) := by
  obtain ⟨hA, hB, -, hD⟩ := uploadPartGo_spec oracle jitter path k errMsg now
    MAX_RETRIES 0 [] (initializePartTracking s)
    rfl (by unfold MAX_RETRIES; omega) rfl
    (fun j hj => absurd hj (by simp))
    (by omega)
    (by rw [initializePartTracking_length]; omega)
  exact ⟨hA, hB, hD⟩

/-- Witness for `C3_retry_backoff`: part 1 of a one-part file, an
always-failing put, zero jitter. -/
theorem C3_retry_backoff_witness :
    1 ≤ 1 ∧ 1 ≤ numParts 1 ∧
    ((uploadPart (fun _ => false) (fun _ => 0) "p" 1 "boom" 0
        (initializePartTracking 1)).delaysMs.length ≤ MAX_RETRIES - 1 ∧
    (∀ j, j < (uploadPart (fun _ => false) (fun _ => 0) "p" 1 "boom" 0
        (initializePartTracking 1)).delaysMs.length →
      (uploadPart (fun _ => false) (fun _ => 0) "p" 1 "boom" 0
        (initializePartTracking 1)).delaysMs[j]? =
        some (min (1000 * 2 ^ j) 32000 + (fun _ => (0 : ℚ)) (j + 1))) ∧
    ((uploadPart (fun _ => false) (fun _ => 0) "p" 1 "boom" 0
        (initializePartTracking 1)).success = false →
      (uploadPart (fun _ => false) (fun _ => 0) "p" 1 "boom" 0
        (initializePartTracking 1)).delaysMs.length = MAX_RETRIES - 1 ∧
      ((uploadPart (fun _ => false) (fun _ => 0) "p" 1 "boom" 0
        (initializePartTracking 1)).parts[1 - 1]?).map (fun p => p.status) =
          some "error" ∧
      ((uploadPart (fun _ => false) (fun _ => 0) "p" 1 "boom" 0
        (initializePartTracking 1)).parts[1 - 1]?).map (fun p => p.progress) =
          some 0)) :=
  ⟨by decide, by decide,
    C3_retry_backoff (fun _ => false) (fun _ => 0) "p" "boom" 0 1 1
      (by decide) (by decide)⟩

/-- C3 counterexample to the claim as stated: when every attempt fails,
the retry budget is exhausted (the call throws) after exactly 4
retries/backoff sleeps — five `Storage.put` attempts — never 5 retries. -/
theorem C3_counterexample_four_retries :
    (uploadPart (fun _ => false) (fun _ => 0) "p" 1 "boom" 0
      (initializePartTracking 1)).success = false ∧
    (uploadPart (fun _ => false) (fun _ => 0) "p" 1 "boom" 0
      (initializePartTracking 1)).delaysMs.length = 4 ∧
    (uploadPart (fun _ => false) (fun _ => 0) "p" 1 "boom" 0
      (initializePartTracking 1)).delaysMs.length ≠ 5 ∧
    (uploadPart (fun _ => false) (fun _ => 0) "p" 1 "boom" 0
      (initializePartTracking 1)).trace.length = 5 := by
  refine ⟨rfl, rfl, by decide, rfl⟩

/-- Every `Storage` call `uploadPart` makes is the plain put of its own
chunk object `${path}_part${partNumber}` at level `protected`. -/
theorem uploadPartGo_trace_puts (oracle : ℕ → Bool) (jitter : ℕ → ℚ) (path : String)
    (k : ℕ) (errMsg : String) (now : ℚ) :
    ∀ (fuel retries : ℕ) (delays : List ℚ) (parts : List PartRec),
    ∀ op ∈ (uploadPartGo oracle jitter path k errMsg now fuel retries delays parts).trace,
      op = StorOp.put (partObjectKey path k) "protected" := by
  intro fuel
  induction fuel with
  | zero =>
    intro retries delays parts op hop
    simp only [uploadPartGo, List.not_mem_nil] at hop
  | succ fuel ih =>
    intro retries delays parts op hop
    simp only [uploadPartGo] at hop
    by_cases ho : oracle retries
    · simp only [ho, if_true, List.mem_singleton] at hop
      exact hop
    · simp only [ho, Bool.false_eq_true, if_false] at hop
      by_cases hr : retries + 1 ≥ MAX_RETRIES
      · simp only [hr, if_true, List.mem_singleton] at hop
        exact hop
      · simp only [hr, if_false] at hop
        rcases List.mem_cons.mp hop with h | h
        · exact h
        · exact ih _ _ _ _ h

/-- C5: each chunk with part number `n` is stored as an independent
object at key `${path}_part${n}` via a plain `Storage.put` call — every
`Storage` operation `uploadPart` performs is such a put, never a native
multipart-API call; after all parts succeed, `completeUpload` first
uploads the whole file to `path` and `cleanupParts` removes every part
object `${path}_part${n}`; and the whole `completeUpload` trace consists
of plain puts and removes only. -/
theorem C5_independent_part_objects (oracle : ℕ → Bool) (jitter : ℕ → ℚ)
    (path errMsg : String) (now : ℚ) (parts0 : List PartRec) (n k : ℕ)
    (hk1 : 1 ≤ k) (hk2 : k ≤ n) :
    (∀ op ∈ (uploadPart oracle jitter path k errMsg now parts0).trace,
      op = StorOp.put (partObjectKey path k) "protected") ∧
    (completeUpload path ((List.range n).map (fun i => i + 1))).head? =
      some (StorOp.put path "protected") ∧
    StorOp.remove (partObjectKey path k) "protected" ∈
      completeUpload path ((List.range n).map (fun i => i + 1)) ∧
    (∀ op ∈ completeUpload path ((List.range n).map (fun i => i + 1)),
      (∃ key, op = StorOp.put key "protected") ∨
      (∃ key, op = StorOp.remove key "protected")) := by
  have hne : (((List.range n).map (fun i => i + 1)).length ≠ 0) := by
    simp only [List.length_map, List.length_range]
    omega
  have hkmem : k ∈ List.insertionSort (fun a b => a ≤ b)
      ((List.range n).map (fun i => i + 1)) := by
    rw [List.mem_insertionSort]
    exact List.mem_map.mpr ⟨k - 1, List.mem_range.mpr (by omega), by omega⟩
  refine ⟨fun op hop => uploadPartGo_trace_puts oracle jitter path k errMsg now
      MAX_RETRIES 0 [] parts0 op hop, ?_, ?_, ?_⟩
  · simp only [completeUpload]
    rw [if_pos hne]
    rfl
  · simp only [completeUpload]
    rw [if_pos hne]
    exact List.mem_cons_of_mem _
      (List.mem_map.mpr ⟨k, hkmem, rfl⟩)
  · intro op hop
    simp only [completeUpload] at hop
    rw [if_pos hne] at hop
    rcases List.mem_cons.mp hop with h | h
    · exact Or.inl ⟨path, h⟩
    · obtain ⟨m, -, hm⟩ := List.mem_map.mp h
      exact Or.inr ⟨partObjectKey path m, hm.symm⟩

/-- Witness for `C5_independent_part_objects`: part 1 of a two-part
upload, with an immediately succeeding put. -/
theorem C5_independent_part_objects_witness :
    1 ≤ 1 ∧ (1 : ℕ) ≤ 2 ∧
    ((∀ op ∈ (uploadPart (fun _ => true) (fun _ => 0) "d/f.bin" 1 "e" 0
        (initializePartTracking 1)).trace,
      op = StorOp.put (partObjectKey "d/f.bin" 1) "protected") ∧
    (completeUpload "d/f.bin" ((List.range 2).map (fun i => i + 1))).head? =
      some (StorOp.put "d/f.bin" "protected") ∧
    StorOp.remove (partObjectKey "d/f.bin" 1) "protected" ∈
      completeUpload "d/f.bin" ((List.range 2).map (fun i => i + 1)) ∧
    (∀ op ∈ completeUpload "d/f.bin" ((List.range 2).map (fun i => i + 1)),
      (∃ key, op = StorOp.put key "protected") ∨
      (∃ key, op = StorOp.remove key "protected"))) :=
  ⟨by decide, by decide,
    C5_independent_part_objects (fun _ => true) (fun _ => 0) "d/f.bin" "e" 0
      (initializePartTracking 1) 2 1 (by decide) (by decide)⟩

/-- `ReachableParts` states have exactly `numParts` entries. -/
theorem reachable_length (s : ℕ) (ps : List PartRec) (h : ReachableParts s ps) :
    ps.length = numParts s := by
  induction h with
  | init => exact initializePartTracking_length s
  | uploading ps n prog now hr ih => rw [updatePartProgress_length]; exact ih
  | completedStep ps n now hr ih => rw [updatePartProgress_length]; exact ih
  | errorStep ps n msg now hr ih => rw [updatePartProgress_length]; exact ih
  | retryStep ps n msg now hr ih => rw [updatePartProgress_length]; exact ih

/-- `updatePartProgress` keeps every part's `size`. -/
theorem updatePartProgress_map_size (ps : List PartRec) (n : ℕ) (prog : ℚ)
    (st : String) (err : Option String) (now : ℚ) :
    (updatePartProgress ps n prog st err now).map (fun p => p.size) =
      ps.map (fun p => p.size) := by
  apply List.ext_getElem?
  intro j
  rw [List.getElem?_map, List.getElem?_map]
  by_cases hn : n = 0
  · simp [updatePartProgress, hn]
  · by_cases hj : j = n - 1
    · subst hj
      rw [updatePartProgress_getElem_self _ _ _ _ _ _ hn]
      cases ps[n - 1]? <;> simp
    · rw [updatePartProgress_getElem_other _ _ _ _ _ _ _ hj]

/-- `ReachableParts` states have the sizes laid out by
`initializePartTracking`. -/
theorem reachable_sizes (s : ℕ) (ps : List PartRec) (h : ReachableParts s ps) :
    ps.map (fun p => p.size) = (initializePartTracking s).map (fun p => p.size) := by
  induction h with
  | init => rfl
  | uploading ps n prog now hr ih => rw [updatePartProgress_map_size]; exact ih
  | completedStep ps n now hr ih => rw [updatePartProgress_map_size]; exact ih
  | errorStep ps n msg now hr ih => rw [updatePartProgress_map_size]; exact ih
  | retryStep ps n msg now hr ih => rw [updatePartProgress_map_size]; exact ih

/-- A member of an updated parts state is either an old member or has
the category flags dictated by the update's `status` / `error`. -/
theorem mem_updatePartProgress (ps : List PartRec) (n : ℕ) (prog : ℚ) (st : String)
    (err : Option String) (now : ℚ) (p : PartRec)
    (hp : p ∈ updatePartProgress ps n prog st err now) :
    p ∈ ps ∨ (p.completed = (st == "completed") ∧ p.inProgress = (st == "uploading") ∧
      p.error = err) := by
  unfold updatePartProgress at hp
  by_cases hn : n = 0
  · simp only [hn, if_true] at hp
    exact Or.inl hp
  · simp only [hn, if_false] at hp
    rcases heq : ps[n - 1]? with - | old
    · simp only [heq] at hp
      exact Or.inl hp
    · simp only [heq] at hp
      rcases List.mem_or_eq_of_mem_set hp with h | h
      · exact Or.inl h
      · subst h
        exact Or.inr ⟨rfl, rfl, rfl⟩

/-- Every part of a reachable state lies in at most one of the
`completed` / `inProgress` / failed categories. -/
theorem reachable_catCount (s : ℕ) (ps : List PartRec) (h : ReachableParts s ps) :
    ∀ p ∈ ps, partCategoryCount p ≤ 1 := by
  induction h with
  | init =>
    intro p hp
    obtain ⟨i, -, rfl⟩ := List.mem_map.mp hp
    simp [partCategoryCount, jsTruthyErr]
  | uploading ps n prog now hr ih =>
    intro p hp
    rcases mem_updatePartProgress _ _ _ _ _ _ _ hp with hmem | ⟨hc, hi, he⟩
    · exact ih p hmem
    · simp only [partCategoryCount, hc, hi, he, jsTruthyErr]
      simp
  | completedStep ps n now hr ih =>
    intro p hp
    rcases mem_updatePartProgress _ _ _ _ _ _ _ hp with hmem | ⟨hc, hi, he⟩
    · exact ih p hmem
    · simp only [partCategoryCount, hc, hi, he, jsTruthyErr]
      simp
  | errorStep ps n msg now hr ih =>
    intro p hp
    rcases mem_updatePartProgress _ _ _ _ _ _ _ hp with hmem | ⟨hc, hi, he⟩
    · exact ih p hmem
    · simp only [partCategoryCount, hc, hi, he, jsTruthyErr]
      rw [show ("error" == "completed") = false from by decide,
        show ("error" == "uploading") = false from by decide]
      simp only [Bool.false_eq_true, if_false]
      split <;> omega
  | retryStep ps n msg now hr ih =>
    intro p hp
    rcases mem_updatePartProgress _ _ _ _ _ _ _ hp with hmem | ⟨hc, hi, he⟩
    · exact ih p hmem
    · simp only [partCategoryCount, hc, hi, he, jsTruthyErr]
      rw [show ("retrying" == "completed") = false from by decide,
        show ("retrying" == "uploading") = false from by decide]
      simp only [Bool.false_eq_true, if_false]
      split <;> omega

/-- The three category filters of `calculateProgress` count at most
`l.length` parts in total when each part is in at most one category. -/
theorem filters_count_le (l : List PartRec) (hinv : ∀ p ∈ l, partCategoryCount p ≤ 1) :
    (l.filter (fun p => p.completed)).length + (l.filter (fun p => p.inProgress)).length +
      (l.filter (fun p => jsTruthyErr p.error)).length ≤ l.length := by
  induction l with
  | nil => simp
  | cons p rest ih =>
    have hp := hinv p (List.mem_cons_self p rest)
    have hrest := ih fun q hq => hinv q (List.mem_cons_of_mem p hq)
    simp only [List.filter_cons, List.length_cons]
    unfold partCategoryCount at hp
    cases h1 : p.completed <;> cases h2 : p.inProgress <;>
      cases h3 : jsTruthyErr p.error <;>
      simp [h1, h2, h3] at hp ⊢ <;>
      omega

/-- `overallUploadedBytes` as a mapped sum. -/
theorem foldl_add_map (f : PartRec → ℚ) (l : List PartRec) :
    ∀ a : ℚ, l.foldl (fun t p => t + f p) a = a + (l.map f).sum := by
  induction l with
  | nil => intro a; simp
  | cons p rest ih =>
    intro a
    simp only [List.foldl_cons, List.map_cons, List.sum_cons, ih]
    ring

/-- The `uploadedBytes` reduction equals `Σ size * (progress / 100)`. -/
theorem overallUploadedBytes_eq (parts : List PartRec) :
    overallUploadedBytes parts =
      (parts.map (fun p => (p.size : ℚ) * (p.progress / 100))).sum := by
  unfold overallUploadedBytes
  rw [foldl_add_map]
  ring

/-- C7: for every parts state reachable through the code's
`updatePartProgress` calls, each part is in at most one of the
completed / inProgress / error categories; the statistics produced by
`updateOverallProgress` → `calculateProgress` satisfy
`completed + inProgress + failed + pending = totalParts` with
`pending ≥ 0`; and when every part's progress lies in `[0, 100]` the
aggregate progress percentage lies in `[0, 100]` while `bytesUploaded`
is exactly `Σ size * progress / 100`. -/
theorem C7_progress_invariants (P : JsPrim) (h : Handler) (now : ℚ) (s : ℕ)
    (hreach : ReachableParts s h.parts) (hsize : h.fileSize = s) (hs : 0 < s)
    (hnum : h.numParts = numParts s)
    (hprog : ∀ p ∈ h.parts, 0 ≤ p.progress ∧ p.progress ≤ 100) :
    (∀ p ∈ h.parts, partCategoryCount p ≤ 1) ∧
    ((updateOverallProgress P h now).2.statistics.completed +
      (updateOverallProgress P h now).2.statistics.inProgress +
      (updateOverallProgress P h now).2.statistics.failed : ℤ) +
      (updateOverallProgress P h now).2.statistics.pending = h.numParts ∧
    0 ≤ (updateOverallProgress P h now).2.statistics.pending ∧
    0 ≤ (updateOverallProgress P h now).2.progress ∧
    (updateOverallProgress P h now).2.progress ≤ 100 ∧
    (updateOverallProgress P h now).2.bytesUploaded =
      (h.parts.map (fun p => (p.size : ℚ) * (p.progress / 100))).sum := by
  have hcat := reachable_catCount s h.parts hreach
  have hlen := reachable_length s h.parts hreach
  have hcount := filters_count_le h.parts hcat
  have hstatc : (updateOverallProgress P h now).2.statistics.completed =
      (h.parts.filter (fun p => p.completed)).length := rfl
  have hstati : (updateOverallProgress P h now).2.statistics.inProgress =
      (h.parts.filter (fun p => p.inProgress)).length := rfl
  have hstatf : (updateOverallProgress P h now).2.statistics.failed =
      (h.parts.filter (fun p => jsTruthyErr p.error)).length := rfl
  have hstatp : (updateOverallProgress P h now).2.statistics.pending =
      (h.numParts : ℤ) - ((h.parts.filter (fun p => p.completed)).length +
        (h.parts.filter (fun p => p.inProgress)).length +
        (h.parts.filter (fun p => jsTruthyErr p.error)).length) := rfl
  have hprogeq : (updateOverallProgress P h now).2.progress =
      overallUploadedBytes h.parts / (h.fileSize : ℚ) * 100 := rfl
  have hbyteseq : (updateOverallProgress P h now).2.bytesUploaded =
      overallUploadedBytes h.parts := rfl
  -- the total size of the parts
  have hNat : (h.parts.map (fun p => p.size)).sum = s := by
    rw [reachable_sizes s h.parts hreach, initializePartTracking_sizes]
    exact chunkSizes_sum (numParts s) s hs (numParts_bounds s hs).1 (numParts_bounds s hs).2
  have hQ : (h.parts.map (fun p => (p.size : ℚ))).sum = (s : ℚ) := by
    have hmm : h.parts.map (fun p => (p.size : ℚ)) =
        (h.parts.map (fun p => p.size)).map (fun m : ℕ => (m : ℚ)) := by
      rw [List.map_map]
      rfl
    rw [hmm, ← Nat.cast_list_sum, hNat]
  have hSpos : (0 : ℚ) < (h.fileSize : ℚ) := by
    rw [hsize]
    exact_mod_cast hs
  -- bounds on the uploaded bytes
  have hBnonneg : 0 ≤ overallUploadedBytes h.parts := by
    rw [overallUploadedBytes_eq]
    apply List.sum_nonneg
    intro x hx
    obtain ⟨p, hp, rfl⟩ := List.mem_map.mp hx
    have hpr := hprog p hp
    exact mul_nonneg (Nat.cast_nonneg _) (div_nonneg hpr.1 (by norm_num))
  have hBle : overallUploadedBytes h.parts ≤ (h.fileSize : ℚ) := by
    rw [overallUploadedBytes_eq, hsize, ← hQ]
    apply List.sum_le_sum
    intro p hp
    obtain ⟨hp0, hp100⟩ := hprog p hp
    have hdiv : p.progress / 100 ≤ 1 := by
      rw [div_le_one (by norm_num)]
      linarith
    calc (p.size : ℚ) * (p.progress / 100) ≤ (p.size : ℚ) * 1 :=
          mul_le_mul_of_nonneg_left hdiv (by positivity)
      _ = (p.size : ℚ) := mul_one _
  refine ⟨hcat, ?_, ?_, ?_, ?_, ?_⟩
  · rw [hstatc, hstati, hstatf, hstatp]
    omega
  · rw [hstatp]
    rw [hnum, ← hlen]
    omega
  · rw [hprogeq]
    positivity
  · rw [hprogeq]
    have hfrac : overallUploadedBytes h.parts / (h.fileSize : ℚ) ≤ 1 :=
      (div_le_one hSpos).mpr hBle
    linarith
  · rw [hbyteseq, overallUploadedBytes_eq]

/-- Witness for `C7_progress_invariants`: the freshly initialized
one-part state of `sampleHandler`. -/
theorem C7_progress_invariants_witness :
    ReachableParts 1 sampleHandler.parts ∧ sampleHandler.fileSize = 1 ∧ 0 < 1 ∧
    sampleHandler.numParts = numParts 1 ∧
    (∀ p ∈ sampleHandler.parts, 0 ≤ p.progress ∧ p.progress ≤ 100) ∧
    ((∀ p ∈ sampleHandler.parts, partCategoryCount p ≤ 1) ∧
    ((updateOverallProgress P0 sampleHandler 0).2.statistics.completed +
      (updateOverallProgress P0 sampleHandler 0).2.statistics.inProgress +
      (updateOverallProgress P0 sampleHandler 0).2.statistics.failed : ℤ) +
      (updateOverallProgress P0 sampleHandler 0).2.statistics.pending =
        sampleHandler.numParts ∧
    0 ≤ (updateOverallProgress P0 sampleHandler 0).2.statistics.pending ∧
    0 ≤ (updateOverallProgress P0 sampleHandler 0).2.progress ∧
    (updateOverallProgress P0 sampleHandler 0).2.progress ≤ 100 ∧
    (updateOverallProgress P0 sampleHandler 0).2.bytesUploaded =
      (sampleHandler.parts.map (fun p => (p.size : ℚ) * (p.progress / 100))).sum) :=
  ⟨ReachableParts.init, rfl, by decide, rfl, by decide,
    C7_progress_invariants P0 sampleHandler 0 1 ReachableParts.init rfl (by decide)
      rfl (by decide)⟩

/-- The sort relation of `listBucketContents` is total when
`localeCompare` is a consistent comparator. -/
theorem entryCmp_total (lc : String → String → ℤ)
    (htot : ∀ x y, lc x y ≤ 0 ∨ lc y x ≤ 0) (a b : BucketEntry) :
    entryCmp lc a b ≤ 0 ∨ entryCmp lc b a ≤ 0 := by
  unfold entryCmp
  cases ha : a.isFolder <;> cases hb : b.isFolder <;> simp [ha, hb]
  · exact htot _ _
  · exact htot _ _

/-- The sort relation of `listBucketContents` is transitive when
`localeCompare` is. -/
theorem entryCmp_trans (lc : String → String → ℤ)
    (htrans : ∀ x y z, lc x y ≤ 0 → lc y z ≤ 0 → lc x z ≤ 0) (a b c : BucketEntry)
    (hab : entryCmp lc a b ≤ 0) (hbc : entryCmp lc b c ≤ 0) :
    entryCmp lc a c ≤ 0 := by
  unfold entryCmp at hab hbc ⊢
  cases ha : a.isFolder <;> cases hb : b.isFolder <;> cases hc : c.isFolder <;>
    simp [ha, hb, hc] at hab hbc ⊢ <;>
    exact htrans _ _ _ hab hbc

/-- C8: for every listing, the contents produced by
`listBucketContents` contain no entry whose display name contains
`'.keep'`, place every folder entry before every file entry, and order
entries within the folder group and within the file group by the
`localeCompare` comparator `lc` (assumed to be a total preorder
comparison, as `String.prototype.localeCompare` is). -/
theorem C8_listing_filtered_sorted (lc : String → String → ℤ) (path : String)
    (items : List S3Object)
    (htot : ∀ x y, lc x y ≤ 0 ∨ lc y x ≤ 0)
    (htrans : ∀ x y z, lc x y ≤ 0 → lc y z ≤ 0 → lc x z ≤ 0) :
    (∀ e ∈ listBucketContents lc path items,
      strContains e.displayName ".keep" = false) ∧
    List.Pairwise (fun a b => b.isFolder = true → a.isFolder = true)
      (listBucketContents lc path items) ∧
    List.Pairwise (fun a b => a.isFolder = b.isFolder →
      lc a.displayName b.displayName ≤ 0)
      (listBucketContents lc path items) := by
  have hout : listBucketContents lc path items =
      List.insertionSort (fun a b => entryCmp lc a b ≤ 0)
        ((((items.foldl (listPass2 path) (items.foldl (listPass1 path) [])).map
          (fun kv => kv.2)).filter
            (fun it => !strContains it.displayName ".keep"))) := rfl
  haveI : IsTotal BucketEntry (fun a b => entryCmp lc a b ≤ 0) :=
    ⟨entryCmp_total lc htot⟩
  haveI : IsTrans BucketEntry (fun a b => entryCmp lc a b ≤ 0) :=
    ⟨entryCmp_trans lc htrans⟩
  have hsorted := List.sorted_insertionSort (fun a b => entryCmp lc a b ≤ 0)
    ((((items.foldl (listPass2 path) (items.foldl (listPass1 path) [])).map
      (fun kv => kv.2)).filter (fun it => !strContains it.displayName ".keep")))
  refine ⟨?_, ?_, ?_⟩
  · intro e he
    rw [hout] at he
    have hmem := (List.mem_insertionSort _).mp he
    have hfilt := List.of_mem_filter hmem
    simpa using hfilt
  · rw [hout]
    refine List.Pairwise.imp ?_ hsorted
    intro a b hab hbf
    cases haf : a.isFolder
    · exfalso
      simp [entryCmp, haf, hbf] at hab
    · rfl
  · rw [hout]
    refine List.Pairwise.imp ?_ hsorted
    intro a b hab hsame
    cases haf : a.isFolder
    · rw [haf] at hsame
      simpa [entryCmp, haf, ← hsame] using hab
    · rw [haf] at hsame
      simpa [entryCmp, haf, ← hsame] using hab

/-- Witness for `C8_listing_filtered_sorted`: the constant-equal
comparator on a small listing containing a `.keep` marker, a file and a
folder. -/
theorem C8_listing_filtered_sorted_witness :
    (∀ x y, lcEqual x y ≤ 0 ∨ lcEqual y x ≤ 0) ∧
    (∀ x y z, lcEqual x y ≤ 0 → lcEqual y z ≤ 0 → lcEqual x z ≤ 0) ∧
    ((∀ e ∈ listBucketContents lcEqual "" sampleListing,
      strContains e.displayName ".keep" = false) ∧
    List.Pairwise (fun a b => b.isFolder = true → a.isFolder = true)
      (listBucketContents lcEqual "" sampleListing) ∧
    List.Pairwise (fun a b => a.isFolder = b.isFolder →
      lcEqual a.displayName b.displayName ≤ 0)
      (listBucketContents lcEqual "" sampleListing)) :=
  ⟨fun x y => Or.inl (by norm_num [lcEqual]),
    fun x y z h1 h2 => by norm_num [lcEqual],
    C8_listing_filtered_sorted lcEqual "" sampleListing
      (fun x y => Or.inl (by norm_num [lcEqual]))
      (fun x y z h1 h2 => by norm_num [lcEqual])⟩

end S3Upload
